import Mathlib

/-!
Verification of the user-migration import pipeline (src/usermigrate/main.py).

The Python source is shallowly embedded: JSON-serializable values become the
inductive type Json, Python dicts become association lists, file contents
become Option String (none = the file does not exist), and the per-record
importing procedure, the record-store append, the group derivation and the
discovery/cleanup slice of main become pure Lean functions that mirror the
source control flow.  Exceptions are modelled with Option/explicit outcome
constructors.  The parts of the repository that are external collaborators or
not available under src/ (the Keycloak transport in keycloak/utils.py, the
exception classes in keycloak/exceptions.py, the Python json library) are
modelled from the specification at their interface boundary, and each such
definition says so in its doc comment.
-/

/-- JSON-serializable Python values as they appear in the migration records:
null, booleans, numbers (the records in this pipeline carry integers),
strings, lists, and string-keyed dicts kept in insertion order. -/
inductive Json where
  | null
  | bool (b : Bool)
  | num (n : Int)
  | str (s : String)
  | arr (elems : List Json)
  | obj (entries : List (String × Json))

mutual

/-- Structural equality of Json values (Python dict/list equality). -/
def Json.beq : Json → Json → Bool
  | Json.null, Json.null => true
  | Json.bool a, Json.bool b => a == b
  | Json.num a, Json.num b => a == b
  | Json.str a, Json.str b => a == b
  | Json.arr a, Json.arr b => Json.beqList a b
  | Json.obj a, Json.obj b => Json.beqEntries a b
  | _, _ => false

/-- Pointwise equality of Json lists. -/
def Json.beqList : List Json → List Json → Bool
  | [], [] => true
  | x :: xs, y :: ys => Json.beq x y && Json.beqList xs ys
  | _, _ => false

/-- Pointwise equality of Json object entry lists. -/
def Json.beqEntries : List (String × Json) → List (String × Json) → Bool
  | [], [] => true
  | (k1, v1) :: xs, (k2, v2) :: ys => k1 == k2 && Json.beq v1 v2 && Json.beqEntries xs ys
  | _, _ => false

end

/-- beqList decides equality of lists whose elements all decide equality. -/
theorem Json.beqList_iff_of (xs : List Json)
    (ih : ∀ x ∈ xs, ∀ b, Json.beq x b = true ↔ x = b) :
    ∀ ys, Json.beqList xs ys = true ↔ xs = ys := by
  induction xs with
  | nil => intro ys; cases ys <;> simp [Json.beqList]
  | cons x xs ihx =>
      intro ys
      cases ys with
      | nil => simp [Json.beqList]
      | cons y ys =>
          have hx := ih x (by simp) y
          have hrest := ihx (fun z hz b => ih z (by simp [hz]) b) ys
          simp [Json.beqList, Bool.and_eq_true, hx, hrest]

/-- beqEntries decides equality of entry lists whose values all decide
equality. -/
theorem Json.beqEntries_iff_of (kvs : List (String × Json))
    (ih : ∀ k v, (k, v) ∈ kvs → ∀ b, Json.beq v b = true ↔ v = b) :
    ∀ ys, Json.beqEntries kvs ys = true ↔ kvs = ys := by
  induction kvs with
  | nil => intro ys; cases ys <;> simp [Json.beqEntries]
  | cons kv kvs ihx =>
      intro ys
      obtain ⟨k1, v1⟩ := kv
      cases ys with
      | nil => simp [Json.beqEntries]
      | cons kv2 ys =>
          obtain ⟨k2, v2⟩ := kv2
          have hv := ih k1 v1 (by simp) v2
          have hrest := ihx (fun k v hkv b => ih k v (by simp [hkv]) b) ys
          simp [Json.beqEntries, Bool.and_eq_true, hv, hrest, Prod.mk.injEq, and_assoc]

/-- Json.beq is logically equality. -/
theorem Json.beq_iff : ∀ (a b : Json), Json.beq a b = true ↔ a = b
  | Json.null, b => by cases b <;> simp [Json.beq]
  | Json.bool x, b => by cases b <;> simp [Json.beq]
  | Json.num x, b => by cases b <;> simp [Json.beq]
  | Json.str x, b => by cases b <;> simp [Json.beq]
  | Json.arr xs, b => by
      cases b <;> simp [Json.beq]
      exact Json.beqList_iff_of xs (fun x hx b => Json.beq_iff x b) _
  | Json.obj kvs, b => by
      cases b <;> simp [Json.beq]
      exact Json.beqEntries_iff_of kvs (fun k v hkv b => Json.beq_iff v b) _
termination_by a _ => sizeOf a
decreasing_by
  · have h1 := List.sizeOf_lt_of_mem hx
    simp only [Json.arr.sizeOf_spec]
    omega
  · have h1 := List.sizeOf_lt_of_mem hkv
    have h2 : sizeOf (k, v) = 1 + sizeOf k + sizeOf v := rfl
    simp only [Json.obj.sizeOf_spec]
    omega

instance : DecidableEq Json :=
  fun a b => decidable_of_iff (Json.beq a b = true) (Json.beq_iff a b)

/-- A migration record: a Python dict from string keys to JSON values, kept in
insertion order with distinct keys. -/
abbrev Record := List (String × Json)

/-- Python dict lookup returning an optional value: models both
value.get(name_key) (None when absent) and, at use sites that treat none as a
crash, the KeyError raised by value[key]. -/
def Record.lookup (r : Record) (k : String) : Option Json :=
  (List.find? (fun kv => kv.1 == k) r).map (fun kv => kv.2)

/-- Python truthiness of a JSON value: None, False, 0, empty string, empty
list and empty dict are falsy. -/
def Json.truthy : Json → Bool
  | Json.null => false
  | Json.bool b => b
  | Json.num n => n != 0
  | Json.str s => s != ""
  | Json.arr xs => !xs.isEmpty
  | Json.obj kvs => !kvs.isEmpty

/-- Truthiness of the result of dict.get: absent keys are falsy. -/
def optTruthy : Option Json → Bool
  | none => false
  | some j => Json.truthy j

/-- The ImportResult enum of main.py (lines 218-223). -/
inductive ImportResult where
  | FAILED
  | LOADED
  | EXISTS
  | SKIPPED
deriving DecidableEq

/-- Modelled from the spec: the exception classes of
usermigrate/keycloak/exceptions.py are not under src/.  Per section 4.2 the
Remote API Client raises a Conflict condition on duplicate resources, an
Authentication condition on credential failure, and a Communication condition
on any other transport or server error; all are ordinary exceptions, so a
bare except-Exception clause catches each of them. -/
inductive KeycloakError where
  | conflict (msg : String)
  | authentication (msg : String)
  | communication (msg : String)
deriving DecidableEq

/-- Modelled from the spec: the behaviour of KeycloakApi.post
(usermigrate/keycloak/utils.py, not under src/) at its interface boundary.
One call either returns a success flag or raises a KeycloakError. -/
inductive ApiResponse where
  | returns (success : Bool)
  | raises (e : KeycloakError)
deriving DecidableEq

/-- Modelled from the spec, section 4.2: on HTTP success the client returns
created = true; every failure is raised as a condition, so the client never
returns a falsy success flag. -/
def apiContract : ApiResponse → Prop
  | ApiResponse.returns b => b = true
  | ApiResponse.raises _ => True

/-- One line of the per-object-type import log, kept structured: the Python
source formats each of these into text via write_log_message (main.py
lines 318-322). -/
inductive LogMsg where
  | missingName (value : Record)
  | alreadyExists (objectType : String) (name : Option Json)
  | importFailed (objectType : String) (value : Record) (error : String)
  | summary (objectType : String) (loaded : Nat) (total : Nat) (failed : Nat)
      (skipped : Nat) (existing : Nat)
deriving DecidableEq

/-- The externally visible side effects of import worker calls: lines appended
to the object type's import log, records appended to the object type's retry
cache, and the number of api.post calls issued. -/
structure CallEffects where
  log : List LogMsg
  cache : List Record
  apiCalls : Nat
deriving DecidableEq

/-- No side effects. -/
def CallEffects.empty : CallEffects := ⟨[], [], 0⟩

/-- Sequential composition of side effects. -/
def CallEffects.append (a b : CallEffects) : CallEffects :=
  ⟨a.log ++ b.log, a.cache ++ b.cache, a.apiCalls + b.apiCalls⟩

/-- The message carried by a Keycloak error condition. -/
def KeycloakError.msgOf : KeycloakError → String
  | KeycloakError.conflict m => m
  | KeycloakError.authentication m => m
  | KeycloakError.communication m => m

/-- import_value (main.py lines 226-256).  The resp argument is the response
the Remote API Client would give for this record; it is consulted only if a
call is made.  The first component is the returned ImportResult, none when the
Python function falls off the end of its try block (api.post returned a falsy
success flag) and returns None. -/
def import_value (value : Record) (object_type : String) (name_key : String)
    (resp : ApiResponse) : Option ImportResult × CallEffects :=
  let name := Record.lookup value name_key
  if optTruthy name = false then
    (some ImportResult.SKIPPED, ⟨[LogMsg.missingName value], [value], 0⟩)
  else
    match resp with
    | ApiResponse.returns success =>
        if success then (some ImportResult.LOADED, ⟨[], [], 1⟩)
        else (none, ⟨[], [], 1⟩)
    | ApiResponse.raises (KeycloakError.conflict _) =>
        (some ImportResult.EXISTS, ⟨[LogMsg.alreadyExists object_type name], [], 1⟩)
    | ApiResponse.raises e =>
        (some ImportResult.FAILED,
          ⟨[LogMsg.importFailed object_type value (KeycloakError.msgOf e)], [value], 1⟩)

/-- C1: evaluation at the failing input.  For a record with a non-empty name
whose Remote API Client call raises an Authentication condition, import_value
does not propagate the condition: its generic except-Exception clause catches
it, writes a failure log line, appends the record to the retry cache and
returns FAILED, so the batch continues with the remaining records. -/
theorem C1_authentication_error_is_caught :
    import_value [("name", Json.str "g1")] "group" "name"
        (ApiResponse.raises (KeycloakError.authentication "invalid credentials"))
      = (some ImportResult.FAILED,
          ⟨[LogMsg.importFailed "group" [("name", Json.str "g1")] "invalid credentials"],
            [[("name", Json.str "g1")]], 1⟩) := rfl

/-- C2: under the Remote API Client contract (success returns created = true,
every failure is raised), import_value returns exactly one of the four
ImportResult tags for every record and every response; it never returns
None. -/
theorem C2_import_value_total (value : Record) (object_type name_key : String)
    (resp : ApiResponse) (h : apiContract resp) :
    ∃ r : ImportResult, (import_value value object_type name_key resp).1 = some r := by
  by_cases hb : optTruthy (Record.lookup value name_key) = false
  · exact ⟨ImportResult.SKIPPED, by simp [import_value, hb]⟩
  · cases resp with
    | returns success =>
        have hs : success = true := h
        subst hs
        exact ⟨ImportResult.LOADED, by simp [import_value, hb]⟩
    | raises e =>
        cases e with
        | conflict m => exact ⟨ImportResult.EXISTS, by simp [import_value, hb]⟩
        | authentication m => exact ⟨ImportResult.FAILED, by simp [import_value, hb]⟩
        | communication m => exact ⟨ImportResult.FAILED, by simp [import_value, hb]⟩

/-- Witness for C2 at a concrete record and response. -/
theorem C2_import_value_total_witness :
    ∃ r : ImportResult,
      (import_value [] "user" "username" (ApiResponse.returns true)).1 = some r :=
  C2_import_value_total [] "user" "username" (ApiResponse.returns true) rfl

/-- C3: a record whose value at the name-field key is absent or empty is
SKIPPED: one log line is written, the record is appended to the retry cache,
and no Remote API Client call is made, whatever the client would have
answered. -/
theorem C3_missing_name_skipped (value : Record) (object_type name_key : String)
    (resp : ApiResponse)
    (h : optTruthy (Record.lookup value name_key) = false) :
    import_value value object_type name_key resp
      = (some ImportResult.SKIPPED, ⟨[LogMsg.missingName value], [value], 0⟩) := by
  simp [import_value, h]

/-- Witness for C3: a user record lacking the username key. -/
theorem C3_missing_name_skipped_witness :
    import_value [("groups", Json.arr [Json.str "g1"])] "user" "username"
        (ApiResponse.returns true)
      = (some ImportResult.SKIPPED,
          ⟨[LogMsg.missingName [("groups", Json.arr [Json.str "g1"])]],
            [[("groups", Json.arr [Json.str "g1"])]], 0⟩) :=
  C3_missing_name_skipped [("groups", Json.arr [Json.str "g1"])] "user" "username"
    (ApiResponse.returns true) rfl

/-- C4: a record for which the Remote API Client raises a Conflict condition
gets result EXISTS, one log line, and is never appended to the retry cache. -/
theorem C4_conflict_exists_not_cached (value : Record) (object_type name_key m : String)
    (h : optTruthy (Record.lookup value name_key) = true) :
    import_value value object_type name_key
        (ApiResponse.raises (KeycloakError.conflict m))
      = (some ImportResult.EXISTS,
          ⟨[LogMsg.alreadyExists object_type (Record.lookup value name_key)], [], 1⟩) := by
  simp [import_value, h]

/-- Witness for C4 at a concrete group record. -/
theorem C4_conflict_exists_not_cached_witness :
    import_value [("name", Json.str "g2")] "group" "name"
        (ApiResponse.raises (KeycloakError.conflict "409"))
      = (some ImportResult.EXISTS,
          ⟨[LogMsg.alreadyExists "group" (some (Json.str "g2"))], [], 1⟩) := by
  have h := C4_conflict_exists_not_cached [("name", Json.str "g2")] "group" "name" "409" rfl
  simpa using h

/-- C5: a record for which the Remote API Client raises a non-Conflict,
non-Authentication error (a Communication condition, per the classification
contract) gets result FAILED and is appended to the retry cache exactly
once. -/
theorem C5_communication_error_failed_cached_once (value : Record)
    (object_type name_key m : String)
    (h : optTruthy (Record.lookup value name_key) = true) :
    import_value value object_type name_key
        (ApiResponse.raises (KeycloakError.communication m))
      = (some ImportResult.FAILED,
          ⟨[LogMsg.importFailed object_type value m], [value], 1⟩) := by
  simp [import_value, h, KeycloakError.msgOf]

/-- Witness for C5 at a concrete user record. -/
theorem C5_communication_error_failed_cached_once_witness :
    import_value [("username", Json.str "a")] "user" "username"
        (ApiResponse.raises (KeycloakError.communication "timeout"))
      = (some ImportResult.FAILED,
          ⟨[LogMsg.importFailed "user" [("username", Json.str "a")] "timeout"],
            [[("username", Json.str "a")]], 1⟩) :=
  C5_communication_error_failed_cached_once [("username", Json.str "a")] "user"
    "username" "timeout" rfl

/-- Hexadecimal digit for low-codepoint escapes. -/
def hexDigit (n : Nat) : Char :=
  if n < 10 then Char.ofNat (48 + n) else Char.ofNat (87 + n)

/-- Modelled from the spec: escaping of one character inside a JSON string,
as the external Python json.dumps serializer (an external collaborator of the
Record Store) performs it on the ASCII record data this pipeline carries. -/
def escapeChar (c : Char) : String :=
  if c = '"' then "\\\""
  else if c = '\\' then "\\\\"
  else if c = '\n' then "\\n"
  else if c = '\t' then "\\t"
  else if c = '\r' then "\\r"
  else if c = Char.ofNat 8 then "\\b"
  else if c = Char.ofNat 12 then "\\f"
  else if c.toNat < 32 then
    "\\u00" ++ String.singleton (hexDigit (c.toNat / 16))
      ++ String.singleton (hexDigit (c.toNat % 16))
  else String.singleton c

/-- Escaping of a whole JSON string body. -/
def escapeString (s : String) : String :=
  String.join (s.data.map escapeChar)

mutual

/-- Modelled from the spec: the external Python json.dumps serializer with its
default separators, producing one line of text per record for the Record
Store (section 4.1). -/
def Json.dumps : Json → String
  | Json.null => "null"
  | Json.bool true => "true"
  | Json.bool false => "false"
  | Json.num n => toString n
  | Json.str s => "\"" ++ escapeString s ++ "\""
  | Json.arr xs => "[" ++ Json.dumpsList xs ++ "]"
  | Json.obj kvs => "\x7b" ++ Json.dumpsEntries kvs ++ "\x7d"

/-- Comma-separated serialization of array elements. -/
def Json.dumpsList : List Json → String
  | [] => ""
  | [x] => Json.dumps x
  | x :: y :: xs => Json.dumps x ++ ", " ++ Json.dumpsList (y :: xs)

/-- Comma-separated serialization of object entries. -/
def Json.dumpsEntries : List (String × Json) → String
  | [] => ""
  | [(k, v)] => "\"" ++ escapeString k ++ "\": " ++ Json.dumps v
  | (k, v) :: e :: xs =>
      "\"" ++ escapeString k ++ "\": " ++ Json.dumps v ++ ", " ++ Json.dumpsEntries (e :: xs)

end

/-- Serialization of one record (a dict) to its cache line. -/
def Record.dumps (r : Record) : String := Json.dumps (Json.obj r)

/-- cache_object (main.py lines 325-336) with the serializer abstracted: it
opens the file in append mode (creating it when absent), writes a newline
first when the file already existed, then writes the serialized record.  The
file is modelled as Option String, none meaning the file does not exist. -/
def cache_object_with (dumps : Record → String) (file : Option String)
    (object_data : Record) : Option String :=
  let add_new_line := file.isSome
  let content := match file with | none => "" | some c => c
  some ((if add_new_line then content ++ "\n" else content) ++ dumps object_data)

/-- cache_object as the source has it, serializing with json.dumps. -/
def cache_object (file : Option String) (object_data : Record) : Option String :=
  cache_object_with Record.dumps file object_data

/-- Modelled from the spec: the Record Store append contract as section 4.1
words it, inserting the newline separator before the new entry only if the
file already has content.  Kept for comparison with cache_object, which keys
the separator on file existence instead. -/
def cache_object_spec (file : Option String) (object_data : Record) : Option String :=
  let content := match file with | none => "" | some c => c
  some ((if content ≠ "" then content ++ "\n" else content) ++ Record.dumps object_data)

/-- C6 counterexample: appending to an existing zero-byte file.  The code
keys the separator on file existence, so it writes a leading newline blank
line where the claimed contract (separator only if the file already has
content) produces none. -/
theorem C6_empty_file_counterexample :
    cache_object (some "") [("name", Json.str "g")]
        = some ("\n" ++ Record.dumps [("name", Json.str "g")]) ∧
    cache_object_spec (some "") [("name", Json.str "g")]
        = some (Record.dumps [("name", Json.str "g")]) ∧
    cache_object (some "") [("name", Json.str "g")]
        ≠ cache_object_spec (some "") [("name", Json.str "g")] :=
  ⟨rfl, rfl, by decide⟩

/-- C6 amended: cache_object appends the serialized record as one line,
inserting the newline separator before the new entry if and only if the file
already exists — also when the existing file is empty, in which case the
write produces a leading blank line. -/
theorem C6_separator_iff_file_exists :
    (∀ r : Record, cache_object none r = some (Record.dumps r)) ∧
    (∀ (c : String) (r : Record),
      cache_object (some c) r = some ((c ++ "\n") ++ Record.dumps r)) :=
  ⟨fun _ => rfl, fun _ _ => rfl⟩

/-- Python text-mode line iteration, accumulator-based: yields one string per
line, keeping the newline terminator on every line and omitting a final empty
line.  This is how main.py lines 139-141 iterate the cache file. -/
def pyLinesAux (acc : List Char) : List Char → List String
  | [] => if acc.isEmpty then [] else [String.mk acc.reverse]
  | c :: cs =>
      if c = '\n' then String.mk (acc.reverse ++ ['\n']) :: pyLinesAux [] cs
      else pyLinesAux (c :: acc) cs

/-- The lines of a file's content under Python line iteration. -/
def pyLines (s : String) : List String := pyLinesAux [] s.data

/-- Parsing the lines of a file one at a time, appending each parsed record:
the body of main's user-loading loop.  A line that fails to parse aborts the
whole read, as the surrounding try block of main.py lines 138-144 does. -/
def loadLines (loads : String → Option Record) : List String → Option (List Record)
  | [] => some []
  | line :: rest => do
      let r ← loads line
      let rs ← loadLines loads rest
      some (r :: rs)

/-- The user-loading loop of main (lines 137-144): open the input file (a
fatal error when it does not exist), iterate its lines, and parse each line
with the deserializer (json.loads in the source). -/
def readAllWith (loads : String → Option Record) (file : Option String) :
    Option (List Record) :=
  match file with
  | none => none
  | some content => loadLines loads (pyLines content)

/-- Appending a batch of records to a cache file one record at a time with
cache_object, as discover (main.py lines 200-201) does. -/
def writeAllWith (dumps : Record → String) (file : Option String)
    (records : List Record) : Option String :=
  records.foldl (cache_object_with dumps) file

/-- Strings are their character data (structure eta). -/
theorem strMk_data (s : String) : String.mk s.data = s := rfl

/-- A string differing from the empty string has nonempty data. -/
theorem strData_ne_nil (s : String) (h : s ≠ "") : s.data ≠ [] := fun hd =>
  h (by rw [← strMk_data s, hd])

/-- Line iteration takes the newline-free chunk before a newline as one
terminated line. -/
theorem pyLinesAux_append_newline (cs : List Char) :
    ∀ (d acc : List Char), (∀ c ∈ d, c ≠ '\n') →
      pyLinesAux acc (d ++ '\n' :: cs)
        = String.mk (acc.reverse ++ d ++ ['\n']) :: pyLinesAux [] cs := by
  intro d
  induction d with
  | nil => intro acc h; simp [pyLinesAux]
  | cons c d ih =>
      intro acc h
      have hc : c ≠ '\n' := h c (by simp)
      have hrest := ih (c :: acc) (fun z hz => h z (by simp [hz]))
      rw [List.cons_append]
      rw [show pyLinesAux acc (c :: (d ++ '\n' :: cs))
          = pyLinesAux (c :: acc) (d ++ '\n' :: cs) from by
        simp [pyLinesAux, if_neg hc]]
      rw [hrest]
      simp [List.append_assoc]

/-- Line iteration yields a trailing newline-free nonempty chunk as one
unterminated line. -/
theorem pyLinesAux_no_newline (d : List Char) :
    ∀ acc : List Char, (∀ c ∈ d, c ≠ '\n') → acc.reverse ++ d ≠ [] →
      pyLinesAux acc d = [String.mk (acc.reverse ++ d)] := by
  induction d with
  | nil =>
      intro acc h hne
      cases acc with
      | nil => simp at hne
      | cons a as => simp [pyLinesAux]
  | cons c d ih =>
      intro acc h hne
      have hc : c ≠ '\n' := h c (by simp)
      have hrest := ih (c :: acc) (fun z hz => h z (by simp [hz])) (by simp)
      simp only [pyLinesAux, if_neg hc]
      rw [hrest]
      simp [List.append_assoc]

/-- The content appended after the first record: a newline separator then the
record line, repeated. -/
def encodeTail (dumps : Record → String) : List Record → String
  | [] => ""
  | r :: rs => ("\n" ++ dumps r) ++ encodeTail dumps rs

/-- Folding cache_object over a batch starting from an existing file appends
separator-record pairs. -/
theorem writeAllWith_some (dumps : Record → String) (rs : List Record) :
    ∀ c : String, writeAllWith dumps (some c) rs = some (c ++ encodeTail dumps rs) := by
  induction rs with
  | nil => intro c; simp [writeAllWith, encodeTail, String.append_empty]
  | cons r rs ih =>
      intro c
      calc writeAllWith dumps (some c) (r :: rs)
          = writeAllWith dumps (some ((c ++ "\n") ++ dumps r)) rs := rfl
        _ = some (((c ++ "\n") ++ dumps r) ++ encodeTail dumps rs) := ih _
        _ = some (c ++ encodeTail dumps (r :: rs)) := by
            simp [encodeTail, String.append_assoc]

/-- Folding cache_object over a non-empty batch starting from a fresh
(absent) file produces the first record line and then separator-record
pairs, with no leading or trailing newline. -/
theorem writeAllWith_cons (dumps : Record → String) (r : Record) (rs : List Record) :
    writeAllWith dumps none (r :: rs) = some (dumps r ++ encodeTail dumps rs) := by
  have step : writeAllWith dumps none (r :: rs)
      = writeAllWith dumps (some ("" ++ dumps r)) rs := rfl
  rw [step, writeAllWith_some, String.empty_append]

/-- The lines the cache file of a batch decomposes into: every record line
but the last keeps its newline terminator. -/
def cacheLines (dumps : Record → String) : List Record → List String
  | [] => []
  | [r] => [dumps r]
  | r :: s :: rs => (dumps r ++ "\n") :: cacheLines dumps (s :: rs)

/-- Iterating the written cache content recovers exactly the record lines,
provided each serialized record is a nonempty newline-free line. -/
theorem pyLines_encode (dumps : Record → String) :
    ∀ (rs : List Record) (r1 : Record),
      (∀ r ∈ r1 :: rs, dumps r ≠ "" ∧ ∀ c ∈ (dumps r).data, c ≠ '\n') →
      pyLines (dumps r1 ++ encodeTail dumps rs) = cacheLines dumps (r1 :: rs) := by
  intro rs
  induction rs with
  | nil =>
      intro r1 h
      obtain ⟨hne, hnl⟩ := h r1 (by simp)
      rw [show encodeTail dumps [] = "" from rfl, String.append_empty]
      unfold pyLines
      rw [pyLinesAux_no_newline (dumps r1).data [] hnl
        (by simpa using strData_ne_nil _ hne)]
      simp [cacheLines, strMk_data]
  | cons r2 rs ih =>
      intro r1 h
      obtain ⟨hne, hnl⟩ := h r1 (by simp)
      have hdata : (dumps r1 ++ encodeTail dumps (r2 :: rs)).data
          = (dumps r1).data ++ '\n' :: (dumps r2 ++ encodeTail dumps rs).data := by
        rw [show encodeTail dumps (r2 :: rs) = ("\n" ++ dumps r2) ++ encodeTail dumps rs
          from rfl]
        simp [String.data_append]
      unfold pyLines
      rw [hdata, pyLinesAux_append_newline _ _ _ hnl]
      have hline : String.mk (List.reverse [] ++ (dumps r1).data ++ ['\n'])
          = dumps r1 ++ "\n" := by
        have : (dumps r1 ++ "\n").data = (dumps r1).data ++ ['\n'] := by
          simp [String.data_append]
        rw [List.reverse_nil, List.nil_append, ← this, strMk_data]
      rw [hline]
      have htail : pyLinesAux [] ((dumps r2 ++ encodeTail dumps rs).data)
          = cacheLines dumps (r2 :: rs) :=
        ih r2 (fun z hz => h z (List.mem_cons_of_mem r1 hz))
      rw [htail]
      rfl

/-- Parsing the recovered lines one at a time succeeds and returns the
original records in order, given that the deserializer inverts the serializer
on each line (with and without the trailing newline json.loads tolerates). -/
theorem loadLines_cacheLines (dumps : Record → String) (loads : String → Option Record) :
    ∀ rs : List Record,
      (∀ r ∈ rs, loads (dumps r) = some r ∧ loads (dumps r ++ "\n") = some r) →
      loadLines loads (cacheLines dumps rs) = some rs := by
  intro rs
  induction rs with
  | nil => intro _; rfl
  | cons r1 rs ih =>
      intro h
      cases rs with
      | nil =>
          have h1 := (h r1 (by simp)).1
          simp [cacheLines, loadLines, h1]
      | cons r2 rs2 =>
          have h1 := (h r1 (by simp)).2
          have hrest := ih (fun z hz => h z (List.mem_cons_of_mem r1 hz))
          simp only [cacheLines] at hrest ⊢
          simp [loadLines, h1, hrest]

/-- C7 (amended to non-empty batches): appending N records one at a time to a
fresh cache file with cache_object and reading the file back line by line
with the deserializer yields exactly the N original records in write order,
for any serializer/deserializer pair satisfying the json contract on those
records (each record serializes to one nonempty newline-free line, and
deserializing that line — with or without its newline terminator — returns
the record). -/
theorem C7_cache_roundtrip (dumps : Record → String) (loads : String → Option Record)
    (records : List Record)
    (hne : records ≠ [])
    (hwf : ∀ r ∈ records, dumps r ≠ "" ∧ ∀ c ∈ (dumps r).data, c ≠ '\n')
    (hload : ∀ r ∈ records, loads (dumps r) = some r ∧ loads (dumps r ++ "\n") = some r) :
    readAllWith loads (writeAllWith dumps none records) = some records := by
  cases records with
  | nil => exact absurd rfl hne
  | cons r1 rs =>
      rw [writeAllWith_cons]
      show loadLines loads (pyLines (dumps r1 ++ encodeTail dumps rs)) = some (r1 :: rs)
      rw [pyLines_encode dumps rs r1 hwf]
      exact loadLines_cacheLines dumps loads (r1 :: rs) hload

/-- JSON whitespace skipping, as the external json.loads tolerates around a
document. -/
def skipWs : List Char → List Char
  | c :: cs => if c = ' ' ∨ c = '\t' ∨ c = '\n' ∨ c = '\r' then skipWs cs else c :: cs
  | [] => []

/-- Unescaping of a JSON string body up to its closing quote, fuelled by the
remaining input length. -/
def parseStringBody : Nat → List Char → List Char → Option (String × List Char)
  | 0, _, _ => none
  | _ + 1, [], _ => none
  | fuel + 1, c :: cs, acc =>
      if c = '"' then some (String.mk acc.reverse, cs)
      else if c = '\\' then
        match cs with
        | [] => none
        | e :: cs2 =>
            if e = '"' then parseStringBody fuel cs2 ('"' :: acc)
            else if e = '\\' then parseStringBody fuel cs2 ('\\' :: acc)
            else if e = '/' then parseStringBody fuel cs2 ('/' :: acc)
            else if e = 'n' then parseStringBody fuel cs2 ('\n' :: acc)
            else if e = 't' then parseStringBody fuel cs2 ('\t' :: acc)
            else if e = 'r' then parseStringBody fuel cs2 ('\r' :: acc)
            else if e = 'b' then parseStringBody fuel cs2 (Char.ofNat 8 :: acc)
            else if e = 'f' then parseStringBody fuel cs2 (Char.ofNat 12 :: acc)
            else none
      else parseStringBody fuel cs (c :: acc)

/-- Parsing a run of decimal digits into a natural number. -/
def parseDigits : List Char → Nat → Bool → Option (Nat × List Char)
  | c :: cs, acc, seen =>
      if c.isDigit then parseDigits cs (acc * 10 + (c.toNat - 48)) true
      else if seen then some (acc, c :: cs) else none
  | [], acc, seen => if seen then some (acc, []) else none

mutual

/-- Modelled from the spec: the external json.loads deserializer on the kind
of documents this pipeline writes — objects, arrays, strings (with the
escape sequences json.dumps emits for the repository's record data), integers,
booleans and null, separated by optional whitespace.  Recursion is fuelled; a
fuel of one more than the input length suffices for any input this
development applies it to. -/
def parseJson : Nat → List Char → Option (Json × List Char)
  | 0, _ => none
  | fuel + 1, cs =>
      match skipWs cs with
      | [] => none
      | c :: cs2 =>
          if c = 'n' then
            match cs2 with
            | 'u' :: 'l' :: 'l' :: rest => some (Json.null, rest)
            | _ => none
          else if c = 't' then
            match cs2 with
            | 'r' :: 'u' :: 'e' :: rest => some (Json.bool true, rest)
            | _ => none
          else if c = 'f' then
            match cs2 with
            | 'a' :: 'l' :: 's' :: 'e' :: rest => some (Json.bool false, rest)
            | _ => none
          else if c = '"' then
            (parseStringBody (cs2.length + 1) cs2 []).map
              (fun p => (Json.str p.1, p.2))
          else if c = '-' then
            (parseDigits cs2 0 false).map
              (fun p => (Json.num (-(p.1 : Int)), p.2))
          else if c.isDigit then
            (parseDigits (c :: cs2) 0 false).map
              (fun p => (Json.num (p.1 : Int), p.2))
          else if c = '[' then
            match skipWs cs2 with
            | ']' :: rest => some (Json.arr [], rest)
            | cs3 => do
                let (j, rest) ← parseJson fuel cs3
                parseArrayTail fuel rest [j]
          else if c = '\x7b' then
            match skipWs cs2 with
            | '\x7d' :: rest => some (Json.obj [], rest)
            | cs3 => do
                let (kv, rest) ← parseEntry fuel cs3
                parseObjTail fuel rest [kv]
          else none

/-- Remaining comma-separated items of an array, after the first. -/
def parseArrayTail : Nat → List Char → List Json → Option (Json × List Char)
  | 0, _, _ => none
  | fuel + 1, cs, acc =>
      match skipWs cs with
      | ']' :: rest => some (Json.arr acc.reverse, rest)
      | ',' :: rest => do
          let (j, rest2) ← parseJson fuel rest
          parseArrayTail fuel rest2 (j :: acc)
      | _ => none

/-- One key-value entry of an object. -/
def parseEntry : Nat → List Char → Option ((String × Json) × List Char)
  | 0, _ => none
  | fuel + 1, cs =>
      match skipWs cs with
      | '"' :: cs2 => do
          let (k, rest) ← parseStringBody (cs2.length + 1) cs2 []
          match skipWs rest with
          | ':' :: rest2 => do
              let (v, rest3) ← parseJson fuel rest2
              some ((k, v), rest3)
          | _ => none
      | _ => none

/-- Remaining comma-separated entries of an object, after the first. -/
def parseObjTail : Nat → List Char → List (String × Json) → Option (Json × List Char)
  | 0, _, _ => none
  | fuel + 1, cs, acc =>
      match skipWs cs with
      | '\x7d' :: rest => some (Json.obj acc.reverse, rest)
      | ',' :: rest => do
          let (kv, rest2) ← parseEntry fuel rest
          parseObjTail fuel rest2 (kv :: acc)
      | _ => none

end

/-- Modelled from the spec: json.loads applied to one cache line, as main.py
line 141 does — the line must hold exactly one JSON document, and the
documents this pipeline caches are objects (records). -/
def json_loads (s : String) : Option Record :=
  match parseJson (s.length + 1) s.data with
  | some (Json.obj kvs, rest) => if (skipWs rest).isEmpty then some kvs else none
  | _ => none

/-- The concrete batch used to witness the cache round-trip. -/
def roundtripBatch : List Record :=
  [[("a", Json.num 1)],
   [("b", Json.str "x"), ("g", Json.arr [Json.str "y", Json.str "z"])]]

/-- Witness for C7: the round-trip at a concrete two-record batch with the
json serializer and deserializer models. -/
theorem C7_cache_roundtrip_witness :
    readAllWith json_loads (writeAllWith Record.dumps none roundtripBatch)
      = some roundtripBatch :=
  C7_cache_roundtrip Record.dumps json_loads roundtripBatch (by decide) (by decide)
    (by decide)

/-- C7 counterexample at the empty batch: no record is ever appended, so no
cache file is created, and reading it back fails (main.py line 139 raises on
the absent file) instead of yielding the zero original records. -/
theorem C7_empty_batch_counterexample :
    readAllWith json_loads (writeAllWith Record.dumps none ([] : List Record)) = none :=
  rfl

/-- The group record built for a group key: the literal
dict with single key name (main.py line 154). -/
def mkGroup (g : Json) : Record := [("name", g)]

/-- Python dict assignment groups[group] = value (main.py line 154): when the
key is already present the entry keeps its position (and its original key
object) and gets the new value; otherwise the pair is appended. -/
def dictInsert (d : List (Json × Record)) (g : Json) : List (Json × Record) :=
  if d.any (fun p => Json.beq p.1 g) then
    d.map (fun p => if Json.beq p.1 g then (p.1, mkGroup g) else p)
  else d ++ [(g, mkGroup g)]

/-- Python iteration over a JSON value, as the inner loop of main.py line 153
performs on user["groups"]: lists yield their elements, strings their
characters, dicts their keys; other values raise TypeError (none). -/
def Json.iterate : Json → Option (List Json)
  | Json.arr xs => some xs
  | Json.str s => some (s.data.map (fun c => Json.str (String.singleton c)))
  | Json.obj kvs => some (kvs.map (fun kv => Json.str kv.1))
  | _ => none

/-- One step of the group-parsing loop of main (lines 152-154) for one user:
fails — a KeyError or TypeError propagating out of main, uncaught — when the
user lacks the "groups" key or its value is not iterable. -/
def parseGroupsStep (d : List (Json × Record)) (u : Record) :
    Option (List (Json × Record)) := do
  let gs ← Record.lookup u "groups"
  let elems ← Json.iterate gs
  some (elems.foldl dictInsert d)

/-- The group derivation of main (lines 150-155): fold the per-user loop over
the user list starting from an empty dict, then take the dict's values in
insertion order (dict.values()). -/
def parseGroups (users : List Record) : Option (List Record) :=
  (users.foldlM parseGroupsStep []).map (fun d => d.map (fun p => p.2))

/-- The keys of the groups dict, in insertion order. -/
def dictKeys (d : List (Json × Record)) : List Json := d.map (fun p => p.1)

/-- Invariant of the groups dict: every value is the group record of its key,
and keys are distinct. -/
def DictInv (d : List (Json × Record)) : Prop :=
  (∀ p ∈ d, p.2 = mkGroup p.1) ∧ (dictKeys d).Nodup

/-- Inserting a key leaves exactly the old keys plus the new one. -/
theorem mem_dictKeys_insert (d : List (Json × Record)) (g k : Json) :
    k ∈ dictKeys (dictInsert d g) ↔ k ∈ dictKeys d ∨ k = g := by
  by_cases hmem : d.any (fun p => Json.beq p.1 g) = true
  · have hg : g ∈ dictKeys d := by
      rcases List.any_eq_true.mp hmem with ⟨p, hp, hbeq⟩
      have := (Json.beq_iff p.1 g).mp hbeq
      exact this ▸ List.mem_map.mpr ⟨p, hp, rfl⟩
    have hkeys : dictKeys (dictInsert d g) = dictKeys d := by
      simp only [dictInsert, if_pos hmem, dictKeys, List.map_map]
      apply List.map_congr_left
      intro p _
      by_cases hb : Json.beq p.1 g = true <;> simp [hb]
    rw [hkeys]
    constructor
    · exact Or.inl
    · rintro (h | rfl)
      · exact h
      · exact hg
  · simp only [dictInsert, if_neg hmem, dictKeys, List.map_append]
    simp [dictKeys]
/-- Inserting preserves distinctness of keys. -/
theorem nodup_dictKeys_insert (d : List (Json × Record)) (g : Json)
    (h : (dictKeys d).Nodup) : (dictKeys (dictInsert d g)).Nodup := by
  by_cases hmem : d.any (fun p => Json.beq p.1 g) = true
  · have hkeys : dictKeys (dictInsert d g) = dictKeys d := by
      simp only [dictInsert, if_pos hmem, dictKeys, List.map_map]
      apply List.map_congr_left
      intro p _
      by_cases hb : Json.beq p.1 g = true <;> simp [hb]
    rw [hkeys]; exact h
  · have hnotin : g ∉ dictKeys d := by
      intro hgk
      rcases List.mem_map.mp hgk with ⟨p, hp, hpk⟩
      exact hmem (List.any_eq_true.mpr ⟨p, hp, (Json.beq_iff p.1 g).mpr hpk⟩)
    simp only [dictInsert, if_neg hmem, dictKeys, List.map_append]
    simp only [dictKeys] at hnotin h
    simp [List.nodup_append, h, hnotin]

/-- Inserting preserves the value invariant. -/
theorem values_dictInsert (d : List (Json × Record)) (g : Json)
    (h : ∀ p ∈ d, p.2 = mkGroup p.1) :
    ∀ p ∈ dictInsert d g, p.2 = mkGroup p.1 := by
  intro p hp
  by_cases hmem : d.any (fun q => Json.beq q.1 g) = true
  · simp only [dictInsert, if_pos hmem] at hp
    rcases List.mem_map.mp hp with ⟨q, hq, hqp⟩
    by_cases hb : Json.beq q.1 g = true
    · have hqg := (Json.beq_iff q.1 g).mp hb
      rw [if_pos hb] at hqp
      subst hqp
      simp [hqg]
    · rw [if_neg hb] at hqp
      subst hqp
      exact h q hq
  · simp only [dictInsert, if_neg hmem] at hp
    rcases List.mem_append.mp hp with hp1 | hp2
    · exact h p hp1
    · simp at hp2
      subst hp2
      rfl

/-- Folding the inner loop over one user's group elements preserves the dict
invariant and accumulates exactly those elements as keys. -/
theorem foldl_dictInsert_spec (elems : List Json) :
    ∀ d, DictInv d →
      DictInv (elems.foldl dictInsert d) ∧
      (∀ k, k ∈ dictKeys (elems.foldl dictInsert d) ↔ k ∈ dictKeys d ∨ k ∈ elems) := by
  induction elems with
  | nil => intro d hd; exact ⟨hd, fun k => by simp⟩
  | cons g elems ih =>
      intro d hd
      have hd2 : DictInv (dictInsert d g) :=
        ⟨values_dictInsert d g hd.1, nodup_dictKeys_insert d g hd.2⟩
      obtain ⟨hinv, hkeys⟩ := ih (dictInsert d g) hd2
      refine ⟨hinv, fun k => ?_⟩
      rw [List.foldl_cons] at *
      rw [hkeys k, mem_dictKeys_insert]
      simp [or_assoc]

/-- All group elements found in the user list, in encounter order: the
concatenation of each user's "groups" list. -/
def userGroups (u : Record) : List Json :=
  match Record.lookup u "groups" with
  | some (Json.arr xs) => xs
  | _ => []

/-- Every group element of every user. -/
def allGroupElems (users : List Record) : List Json :=
  (users.map userGroups).flatten

/-- Well-formedness of one user record for group parsing: its "groups" key
holds a list of strings. -/
def wfUser (u : Record) : Bool :=
  match Record.lookup u "groups" with
  | some (Json.arr xs) =>
      xs.all (fun j => match j with | Json.str _ => true | _ => false)
  | _ => false

/-- Well-formedness of a user batch for group parsing. -/
def wfUsers (users : List Record) : Bool := users.all wfUser

/-- Folding the group-parsing loop over well-formed users succeeds, preserves
the dict invariant, and accumulates exactly the users' group elements as
keys. -/
theorem foldlM_parseGroupsStep_spec (users : List Record) :
    ∀ d, wfUsers users = true → DictInv d →
      ∃ d2, List.foldlM parseGroupsStep d users = some d2 ∧ DictInv d2 ∧
        (∀ k, k ∈ dictKeys d2 ↔ k ∈ dictKeys d ∨ k ∈ allGroupElems users) := by
  induction users with
  | nil =>
      intro d _ hd
      exact ⟨d, rfl, hd, fun k => by simp [allGroupElems]⟩
  | cons u users ih =>
      intro d hwf hd
      have hwfu : wfUser u = true := by
        have := (List.all_eq_true.mp hwf) u (by simp)
        exact this
      have hwfrest : wfUsers users = true :=
        List.all_eq_true.mpr (fun z hz => (List.all_eq_true.mp hwf) z (by simp [hz]))
      obtain ⟨xs, hlk⟩ : ∃ xs, Record.lookup u "groups" = some (Json.arr xs) := by
        unfold wfUser at hwfu
        cases hval : Record.lookup u "groups" with
        | none => rw [hval] at hwfu; exact absurd hwfu (by simp)
        | some j =>
            cases j <;> rw [hval] at hwfu
            case arr xs => exact ⟨xs, rfl⟩
            all_goals exact absurd hwfu (by simp)
      have hstep : parseGroupsStep d u = some (xs.foldl dictInsert d) := by
        simp [parseGroupsStep, hlk, Json.iterate]
      have hinner := foldl_dictInsert_spec xs d hd
      obtain ⟨d2, hfold, hinv, hkeys⟩ :=
        ih (xs.foldl dictInsert d) hwfrest hinner.1
      refine ⟨d2, ?_, hinv, fun k => ?_⟩
      · rw [List.foldlM_cons, hstep]
        simpa using hfold
      · rw [hkeys k, hinner.2 k]
        have hug : userGroups u = xs := by simp [userGroups, hlk]
        simp [allGroupElems, hug, or_assoc]

/-- The derived group record determines its key. -/
theorem mkGroup_inj {a b : Json} (h : mkGroup a = mkGroup b) : a = b := by
  simpa [mkGroup] using h

/-- Characterization of parseGroups on well-formed user batches: it succeeds,
yields exactly one group record per distinct group element, and never yields
duplicates. -/
theorem parseGroups_spec (users : List Record) (hwf : wfUsers users = true) :
    ∃ out, parseGroups users = some out ∧
      (∀ r, r ∈ out ↔ ∃ g, g ∈ allGroupElems users ∧ r = mkGroup g) ∧
      out.Nodup := by
  obtain ⟨d2, hfold, hinv, hkeys⟩ :=
    foldlM_parseGroupsStep_spec users [] hwf ⟨by simp, by simp [dictKeys]⟩
  refine ⟨d2.map (fun p => p.2), ?_, ?_, ?_⟩
  · simp [parseGroups, hfold]
  · intro r
    constructor
    · intro hr
      rcases List.mem_map.mp hr with ⟨p, hp, hpr⟩
      refine ⟨p.1, ?_, ?_⟩
      · have hk : p.1 ∈ dictKeys d2 := List.mem_map.mpr ⟨p, hp, rfl⟩
        have h2 := (hkeys p.1).mp hk
        simpa [dictKeys] using h2
      · rw [← hpr]
        exact hinv.1 p hp
    · rintro ⟨g, hg, rfl⟩
      have hk : g ∈ dictKeys d2 := (hkeys g).mpr (Or.inr hg)
      rcases List.mem_map.mp hk with ⟨p, hp, hpk⟩
      refine List.mem_map.mpr ⟨p, hp, ?_⟩
      rw [hinv.1 p hp, hpk]
  · have hnd : d2.Nodup := List.Nodup.of_map _ hinv.2
    refine List.Nodup.map_on ?_ hnd
    intro p hp q hq hpq
    have h1 : p.2 = mkGroup p.1 := hinv.1 p hp
    have h2 : q.2 = mkGroup q.1 := hinv.1 q hq
    have hfst : p.1 = q.1 := mkGroup_inj (by rw [← h1, ← h2, hpq])
    exact Prod.ext hfst hpq

/-- Membership in the collected group elements is permutation-invariant. -/
theorem mem_allGroupElems_of_perm {users users2 : List Record}
    (hperm : users2.Perm users) (g : Json) :
    g ∈ allGroupElems users2 ↔ g ∈ allGroupElems users := by
  simp only [allGroupElems, List.mem_flatten, List.mem_map]
  constructor
  · rintro ⟨l, ⟨u, hu, rfl⟩, hgl⟩
    exact ⟨userGroups u, ⟨u, hperm.mem_iff.mp hu, rfl⟩, hgl⟩
  · rintro ⟨l, ⟨u, hu, rfl⟩, hgl⟩
    exact ⟨userGroups u, ⟨u, hperm.mem_iff.mpr hu, rfl⟩, hgl⟩

/-- C8: on a well-formed user batch (every user's "groups" key holds a list
of strings), group derivation succeeds and produces exactly the deduplicated
group records, one record per group name appearing in any user's "groups"
field, every group name being a string; and for every permutation of the
user list the derivation succeeds with the same set of group records. -/
theorem C8_group_derivation (users : List Record) (hwf : wfUsers users = true) :
    ∃ out, parseGroups users = some out ∧
      (∀ r, r ∈ out ↔ ∃ g, g ∈ allGroupElems users ∧ r = mkGroup g) ∧
      out.Nodup ∧
      (∀ g ∈ allGroupElems users, ∃ s, g = Json.str s) ∧
      (∀ users2, users2.Perm users →
        ∃ out2, parseGroups users2 = some out2 ∧ ∀ r, r ∈ out2 ↔ r ∈ out) := by
  obtain ⟨out, hpg, hmem, hnd⟩ := parseGroups_spec users hwf
  refine ⟨out, hpg, hmem, hnd, ?_, ?_⟩
  · intro g hg
    rcases List.mem_flatten.mp hg with ⟨l, hl, hgl⟩
    rcases List.mem_map.mp hl with ⟨u, hu, rfl⟩
    have hwfu : wfUser u = true := List.all_eq_true.mp hwf u hu
    unfold wfUser at hwfu
    unfold userGroups at hgl
    cases hval : Record.lookup u "groups" with
    | none => rw [hval] at hgl; simp at hgl
    | some j =>
        rw [hval] at hgl hwfu
        cases j
        case arr xs =>
            have hj := List.all_eq_true.mp hwfu g hgl
            cases g
            case str s => exact ⟨s, rfl⟩
            all_goals simp at hj
        all_goals simp at hgl
  · intro users2 hperm
    have hwf2 : wfUsers users2 = true :=
      List.all_eq_true.mpr (fun z hz => List.all_eq_true.mp hwf z (hperm.mem_iff.mp hz))
    obtain ⟨out2, hpg2, hmem2, _⟩ := parseGroups_spec users2 hwf2
    refine ⟨out2, hpg2, fun r => ?_⟩
    rw [hmem2 r, hmem r]
    constructor
    · rintro ⟨g, hg, rfl⟩
      exact ⟨g, (mem_allGroupElems_of_perm hperm g).mp hg, rfl⟩
    · rintro ⟨g, hg, rfl⟩
      exact ⟨g, (mem_allGroupElems_of_perm hperm g).mpr hg, rfl⟩

/-- The concrete user batch used to witness the group derivation. -/
def groupBatch : List Record :=
  [[("username", Json.str "a"), ("groups", Json.arr [Json.str "g1"])],
   [("username", Json.str "b"), ("groups", Json.arr [Json.str "g1", Json.str "g2"])]]

/-- Witness for C8 at a concrete two-user batch sharing one group. -/
theorem C8_group_derivation_witness :
    ∃ out, parseGroups groupBatch = some out ∧
      (∀ r, r ∈ out ↔ ∃ g, g ∈ allGroupElems groupBatch ∧ r = mkGroup g) ∧
      out.Nodup ∧
      (∀ g ∈ allGroupElems groupBatch, ∃ s, g = Json.str s) ∧
      (∀ users2, users2.Perm groupBatch →
        ∃ out2, parseGroups users2 = some out2 ∧ ∀ r, r ∈ out2 ↔ r ∈ out) :=
  C8_group_derivation groupBatch (by decide)

/-- Collecting the per-record results for the tally of main.py lines 288-295:
none when some result is None, on which the Python tally
(report[result] += 1) would itself raise a KeyError. -/
def allResults : List (Option ImportResult) → Option (List ImportResult)
  | [] => some []
  | none :: _ => none
  | some r :: rest => (allResults rest).map (fun rs => r :: rs)

/-- populate_keycloak (main.py lines 259-315) for one object type, against an
oracle giving the Remote API Client's would-be response per record: any
previous log file and retry cache are deleted first (lines 264-272), so the
returned effects are the full new content of both files; import_value runs
once per record (the process pool of line 286, whose outcomes are aggregated
by counting, is modelled by the sequence of its per-record calls); the
results are tallied and a summary line is appended to the log
(lines 288-315). -/
def populate_keycloak (apiFor : Record → ApiResponse) (object_type name_key : String)
    (values : List Record) : Option (List ImportResult) × CallEffects :=
  let calls := values.map (fun v => import_value v object_type name_key (apiFor v))
  let effects := calls.foldl (fun acc c => CallEffects.append acc c.2) CallEffects.empty
  match allResults (calls.map (fun c => c.1)) with
  | none => (none, effects)
  | some rs =>
      (some rs,
        CallEffects.append effects
          ⟨[LogMsg.summary object_type (rs.count ImportResult.LOADED) values.length
              (rs.count ImportResult.FAILED) (rs.count ImportResult.SKIPPED)
              (rs.count ImportResult.EXISTS)], [], 0⟩)

/-- How the run slice after user loading ends. -/
inductive RunOutcome where
  | completed
  | nothingToDo
  | crashed
deriving DecidableEq

/-- The tail of main after the user list is loaded (main.py lines 146-189):
return early when no users were found (lines 146-148); otherwise derive the
groups (lines 150-155) — an uncaught KeyError or TypeError here crashes the
run before the Keycloak session is entered and before either import pass —
then run the group import pass followed by the user import pass
(lines 170-176).  The effects collect every log line, retry-cache write and
api.post call of the whole run. -/
def runAfterLoad (apiFor : String → Record → ApiResponse) (users : List Record) :
    RunOutcome × CallEffects :=
  if users.isEmpty then (RunOutcome.nothingToDo, CallEffects.empty)
  else
    match parseGroups users with
    | none => (RunOutcome.crashed, CallEffects.empty)
    | some groups =>
        match populate_keycloak (apiFor "group") "group" "name" groups with
        | (none, e1) => (RunOutcome.crashed, e1)
        | (some _, e1) =>
            match populate_keycloak (apiFor "user") "user" "username" users with
            | (none, e2) => (RunOutcome.crashed, CallEffects.append e1 e2)
            | (some _, e2) => (RunOutcome.completed, CallEffects.append e1 e2)

/-- The group-parsing fold fails as soon as any user lacks the "groups"
key. -/
theorem foldlM_parseGroupsStep_none :
    ∀ (users : List Record), (∃ u ∈ users, Record.lookup u "groups" = none) →
      ∀ d, List.foldlM parseGroupsStep d users = none := by
  intro users
  induction users with
  | nil => intro h; simp at h
  | cons u us ih =>
      intro h d
      rcases h with ⟨w, hw, hlk⟩
      rcases List.mem_cons.mp hw with h1 | h2
      · subst h1
        rw [List.foldlM_cons]
        simp [parseGroupsStep, hlk]
      · rw [List.foldlM_cons]
        cases hstep : parseGroupsStep d u with
        | none => rfl
        | some d2 => simpa using ih ⟨w, h2, hlk⟩ d2

/-- Group derivation fails when some user lacks the "groups" key. -/
theorem parseGroups_none (users : List Record)
    (h : ∃ u ∈ users, Record.lookup u "groups" = none) :
    parseGroups users = none := by
  simp [parseGroups, foldlM_parseGroupsStep_none users h []]

/-- C10: on a non-empty user batch containing at least one user record that
lacks the "groups" key entirely, the run crashes during group derivation,
before the import passes: no api.post call is made, no log line is written,
and no retry-cache write occurs, whatever the Remote API Client would have
answered. -/
theorem C10_missing_groups_key_aborts (apiFor : String → Record → ApiResponse)
    (users : List Record) (hne : users ≠ [])
    (hmiss : ∃ u ∈ users, Record.lookup u "groups" = none) :
    runAfterLoad apiFor users = (RunOutcome.crashed, CallEffects.empty) := by
  have hpg := parseGroups_none users hmiss
  cases users with
  | nil => exact absurd rfl hne
  | cons u us => simp [runAfterLoad, hpg]

/-- Witness for C10: one user record with a username but no "groups" key. -/
theorem C10_missing_groups_key_aborts_witness :
    runAfterLoad (fun _ _ => ApiResponse.returns true)
        [[("username", Json.str "a")]]
      = (RunOutcome.crashed, CallEffects.empty) :=
  C10_missing_groups_key_aborts (fun _ _ => ApiResponse.returns true)
    [[("username", Json.str "a")]] (by decide)
    ⟨[("username", Json.str "a")], by simp, rfl⟩

/-- How the discovery slice of a run ends, carrying the final state of the
discovery cache file. -/
inductive DiscoveryOutcome where
  | completed (cache : Option String)
  | cleanAbort (cache : Option String)
  | crashed (cache : Option String)
deriving DecidableEq

/-- The rediscovery slice of main (lines 119-135) with discover
(lines 192-215), entered without an explicit input file: any pre-existing
cache was already removed (lines 122-124), so discovery starts from an
absent file.  The external database collaborator yields rows, which discover
appends to the cache one at a time with cache_object; rows holds the rows
written before the run either finishes or discovery raises (fails = true
models a database or conversion error at that point, re-raised by discover).
On failure, main's handler (lines 131-135) calls os.remove on the cache
path: when at least one row was written the file exists, the removal
succeeds and main returns cleanly; when no row was written the file does not
exist and os.remove itself raises FileNotFoundError out of the handler,
crashing the run.  In every failure case no cache file remains afterwards. -/
def runDiscovery (rows : List Record) (fails : Bool) : DiscoveryOutcome :=
  let file := writeAllWith Record.dumps none rows
  if fails then
    match file with
    | some _ => DiscoveryOutcome.cleanAbort none
    | none => DiscoveryOutcome.crashed none
  else DiscoveryOutcome.completed file

/-- C9: evaluation at the failing input.  When discovery fails before any row
was written (rows = []), the cleanup handler itself raises (os.remove on a
file that was never created) and the run crashes instead of aborting
cleanly; no cache file exists afterwards in either case, and when at least
one row was written the partial cache is deleted and the abort is clean. -/
theorem C9_discovery_cleanup_eval :
    runDiscovery [] true = DiscoveryOutcome.crashed none ∧
    runDiscovery [[("username", Json.str "a")]] true
      = DiscoveryOutcome.cleanAbort none :=
  ⟨rfl, rfl⟩
